import Mathlib

/-!
Verification of the simple-memory MCP server (`src/main.py`).

The server keeps two process-global, insertion-ordered dictionaries
(`sessions`, `memories`) and exposes eight tool handlers. We embed the
dictionaries as insertion-ordered association lists over `String` keys,
the record types as Lean structures, and each handler as a pure function
returning a semantic result (`Except Err _`) together with the new store.
Fresh ids (`uuid.uuid4()`) and timestamps (`datetime.now().isoformat()`,
sortable) are supplied as explicit parameters; timestamps are modelled
as naturals ordered like the ISO strings the code sorts by.
-/

namespace SimpleMemory

/-- Error kinds, one per distinct error branch of the handlers
(the Python code renders each as a text block). -/
inductive Err where
  | emptyName
  | emptySessionId
  | emptyContent
  | emptyQuery
  | emptyMemoryId
  | sessionNotFound
  | memoryNotFound
deriving DecidableEq, Repr

/-- A session record, `sessions[session_id] = {id, name, created_at, memory_count}`
(main.py line 29, 225-230). -/
structure Session where
  id : String
  name : String
  created_at : Nat
  memory_count : Nat
deriving DecidableEq, Repr

/-- A memory record, `memories[memory_id] = {id, session_id, content, created_at, tags}`
(main.py line 30, 322-328). -/
structure Memory where
  id : String
  session_id : String
  content : String
  created_at : Nat
  tags : List String
deriving DecidableEq, Repr

/-- The two global dictionaries (main.py lines 29-30), modelled as
insertion-ordered association lists (Python dicts preserve insertion order). -/
structure Store where
  sessions : List (String × Session)
  memories : List (String × Memory)
deriving DecidableEq, Repr

/-- Python `str.strip()`: remove leading and trailing whitespace. Implemented
over the character list so that it reduces in the kernel. -/
def pyStrip (s : String) : String :=
  ⟨((s.data.dropWhile Char.isWhitespace).reverse.dropWhile Char.isWhitespace).reverse⟩

/-- Python `str.lower()`: lower-case each character. -/
def pyLower (s : String) : String := ⟨s.data.map Char.toLower⟩

/-- Dictionary lookup `d[k]` / `k in d`: first (unique) entry with the key. -/
def alookup {α : Type} (k : String) : List (String × α) → Option α
  | [] => none
  | p :: l => if p.1 = k then some p.2 else alookup k l

/-- Dictionary assignment `d[k] = v`: replace the value if the key is
present, otherwise append the new entry (insertion order). -/
def ainsert {α : Type} (k : String) (v : α) (l : List (String × α)) : List (String × α) :=
  if (alookup k l).isSome then l.map (fun p => if p.1 = k then (p.1, v) else p)
  else l ++ [(k, v)]

/-- Dictionary deletion `del d[k]`. -/
def aerase {α : Type} (k : String) (l : List (String × α)) : List (String × α) :=
  l.filter (fun p => !(p.1 == k))

/-- In-place update of one entry's value, `d[k]["field"] = ...`. -/
def mapUpd {α : Type} (k : String) (f : α → α) (l : List (String × α)) : List (String × α) :=
  l.map (fun p => if p.1 = k then (p.1, f p.2) else p)

/-- `session_exists` (main.py lines 40-42). -/
def session_exists (sid : String) (st : Store) : Bool :=
  (alookup sid st.sessions).isSome

/-- `get_session_memories` (main.py lines 44-46): the values of the memory
dictionary, in insertion order, filtered by `session_id`. -/
def get_session_memories (ms : List (String × Memory)) (sid : String) : List Memory :=
  (ms.map Prod.snd).filter (fun m => m.session_id == sid)

/-- `update_session_memory_count` (main.py lines 48-51): if the session is
present, recompute its `memory_count` from the memory store; otherwise no-op. -/
def update_session_memory_count (sid : String) (st : Store) : Store :=
  { st with sessions :=
      mapUpd sid (fun sess => { sess with
        memory_count := (get_session_memories st.memories sid).length }) st.sessions }

/-- Stable insertion into a descending-by-`created_at` list: the new element
goes before the first strictly older element, after any element at least as
recent (so equal keys keep their original relative order). -/
def insertDesc (m : Memory) : List Memory → List Memory
  | [] => [m]
  | y :: ys => if y.created_at ≤ m.created_at then m :: y :: ys else y :: insertDesc m ys

/-- `lst.sort(key=lambda x: x["created_at"], reverse=True)` (main.py lines 373, 499):
Python's sort is stable, so with `reverse=True` equal keys keep their original
(insertion) order while keys otherwise come out descending. -/
def sortByCreatedDesc (l : List Memory) : List Memory := l.foldr insertDesc []

/-- `handle_create_session` (main.py lines 212-241). `sid`/`t` stand for the
freshly generated id and timestamp. -/
def handle_create_session (name : String) (sid : String) (t : Nat) (st : Store) :
    Except Err Session × Store :=
  if pyStrip name = "" then (Except.error Err.emptyName, st)
  else
    let sess : Session := { id := sid, name := pyStrip name, created_at := t, memory_count := 0 }
    (Except.ok sess, { st with sessions := ainsert sid sess st.sessions })

/-- `handle_delete_session` (main.py lines 262-293): after the two checks,
collect the ids of the session's memories, delete each from the memory
dictionary, delete the session, and report the number of memories deleted. -/
def handle_delete_session (sid : String) (st : Store) :
    Except Err (Session × Nat) × Store :=
  if sid = "" then (Except.error Err.emptySessionId, st)
  else
    match alookup sid st.sessions with
    | none => (Except.error Err.sessionNotFound, st)
    | some sess =>
      let ids := (get_session_memories st.memories sid).map (fun m => m.id)
      (Except.ok (sess, ids.length),
        { sessions := aerase sid st.sessions,
          memories := st.memories.filter (fun p => !(ids.contains p.1)) })

/-- `handle_add_memory` (main.py lines 295-345): validation order is
session id falsy, then content blank after strip, then session existence;
on success store the trimmed content and the tag list as given, then
recompute the owning session's memory count. -/
def handle_add_memory (sid content : String) (tags : List String) (mid : String) (t : Nat)
    (st : Store) : Except Err Memory × Store :=
  if sid = "" then (Except.error Err.emptySessionId, st)
  else if pyStrip content = "" then (Except.error Err.emptyContent, st)
  else if !(session_exists sid st) then (Except.error Err.sessionNotFound, st)
  else
    let mrec : Memory :=
      { id := mid, session_id := sid, content := pyStrip content, created_at := t, tags := tags }
    let st1 : Store := { st with memories := ainsert mid mrec st.memories }
    (Except.ok mrec, update_session_memory_count sid st1)

/-- `handle_get_memories` (main.py lines 347-389): returns the session's
memories sorted by creation time, newest first. -/
def handle_get_memories (sid : String) (st : Store) : Except Err (List Memory) :=
  if sid = "" then Except.error Err.emptySessionId
  else if !(session_exists sid st) then Except.error Err.sessionNotFound
  else Except.ok (sortByCreatedDesc (get_session_memories st.memories sid))

/-- `handle_remove_memory` (main.py lines 391-421): delete the memory by id,
then recompute the owning session's count if that session still exists
(`update_session_memory_count` already no-ops on a missing session). -/
def handle_remove_memory (mid : String) (st : Store) : Except Err Memory × Store :=
  if mid = "" then (Except.error Err.emptyMemoryId, st)
  else
    match alookup mid st.memories with
    | none => (Except.error Err.memoryNotFound, st)
    | some m =>
      let st1 : Store := { st with memories := aerase mid st.memories }
      (Except.ok m, update_session_memory_count m.session_id st1)

/-- `handle_clear_session` (main.py lines 423-454): delete each of the
session's memories by id, keep the session, recompute its count, and
report how many memories were removed. -/
def handle_clear_session (sid : String) (st : Store) : Except Err Nat × Store :=
  if sid = "" then (Except.error Err.emptySessionId, st)
  else if !(session_exists sid st) then (Except.error Err.sessionNotFound, st)
  else
    let sm := get_session_memories st.memories sid
    let ids := sm.map (fun m => m.id)
    let st1 : Store := { st with memories := st.memories.filter (fun p => !(ids.contains p.1)) }
    (Except.ok sm.length, update_session_memory_count sid st1)

/-- Python substring test `needle in hay` on character lists. -/
def subOcc (needle : List Char) : List Char → Bool
  | [] => needle.isEmpty
  | c :: cs => needle.isPrefixOf (c :: cs) || subOcc needle cs

/-- Case-insensitive match of the literal pattern at the head of the text,
as `re.IGNORECASE` does for an escaped (literal) pattern. -/
def ciMatchAt (pat s : List Char) : Bool :=
  (pat.map Char.toLower).isPrefixOf (s.map Char.toLower)

/-- Index of the leftmost case-insensitive occurrence of the literal
pattern, the match `re.sub` replaces first. -/
def findCI (pat : List Char) : List Char → Option Nat
  | [] => if ciMatchAt pat [] then some 0 else none
  | c :: cs => if ciMatchAt pat (c :: cs) then some 0 else (findCI pat cs).map (· + 1)

/-- `re.compile(re.escape(query), re.IGNORECASE).sub(rep, s)` (main.py
lines 525-526): repeatedly replace the leftmost remaining case-insensitive
occurrence of the literal pattern and continue after it (non-overlapping).
One unit of fuel is spent per replacement; since every replacement consumes
at least one character of a non-empty pattern, fuel `s.length` suffices. -/
def reSubCI (fuel : Nat) (pat rep s : List Char) : List Char :=
  match fuel with
  | 0 => s
  | fuel + 1 =>
    match findCI pat s with
    | none => s
    | some i => s.take i ++ rep ++ reSubCI fuel pat rep (s.drop (i + pat.length))

/-- String-level wrapper for the highlighting substitution: every
case-insensitive occurrence of the literal `query` is replaced by the
query wrapped in `**`, in the query's original casing. -/
def pyHighlight (query content : String) : String :=
  String.mk (reSubCI content.toList.length query.toList
    ("**" ++ query ++ "**").toList content.toList)

/-- Display transform of one search result (main.py lines 521-526): the
stored content, highlighted only when the trimmed lower-cased query occurs
in the lower-cased content. -/
def displayContent (query : String) (m : Memory) : String :=
  if subOcc (pyLower (pyStrip query)).toList (pyLower m.content).toList then
    pyHighlight query m.content
  else m.content

/-- Search match predicate (main.py lines 485-496): the trimmed lower-cased
query must occur in the lower-cased content, and if a tag filter was given
at least one filter tag must be present verbatim in the memory's tags. -/
def matchesQuery (queryLower : List Char) (tags : List String) (m : Memory) : Bool :=
  subOcc queryLower (pyLower m.content).toList &&
    (tags.isEmpty || tags.any (fun t => m.tags.contains t))

/-- Matching memories sorted newest first, each paired with its display
content (main.py lines 482-531). -/
def searchResults (query : String) (tags : List String) (univ : List Memory) :
    List (Memory × String) :=
  (sortByCreatedDesc (univ.filter (matchesQuery (pyLower (pyStrip query)).toList tags))).map
    (fun m => (m, displayContent query m))

/-- The memories a search ranges over (main.py lines 469-479): the given
session's memories when `session_id` is truthy (present and non-empty),
otherwise all memories of all sessions. -/
def searchUniverse (sid? : Option String) (st : Store) : List Memory :=
  match sid? with
  | some sid => if sid ≠ "" then get_session_memories st.memories sid
                else st.memories.map Prod.snd
  | none => st.memories.map Prod.snd

/-- `handle_search_memories` (main.py lines 456-533). `session_id` comes
from `arguments.get`, so it may be absent (`none`); `if session_id:` is
false for both an absent and an empty-string session id. -/
def handle_search_memories (query : String) (sid? : Option String) (tags : List String)
    (st : Store) : Except Err (List (Memory × String)) :=
  if pyStrip query = "" then Except.error Err.emptyQuery
  else
    match sid? with
    | some sid =>
      if sid ≠ "" then
        if session_exists sid st then
          Except.ok (searchResults query tags (get_session_memories st.memories sid))
        else Except.error Err.sessionNotFound
      else Except.ok (searchResults query tags (st.memories.map Prod.snd))
    | none => Except.ok (searchResults query tags (st.memories.map Prod.snd))

/-- The five mutating operations, with the ids and timestamps their
execution would generate supplied as data. -/
inductive Op where
  | createSession (name sid : String) (t : Nat)
  | addMemory (sid content : String) (tags : List String) (mid : String) (t : Nat)
  | removeMemory (mid : String)
  | clearSession (sid : String)
  | deleteSession (sid : String)
deriving DecidableEq, Repr

/-- Run one mutating operation, keeping only success/error and the new store. -/
def runOp : Op → Store → Except Err Unit × Store
  | Op.createSession name sid t, st =>
    let r := handle_create_session name sid t st; (r.1.map (fun _ => ()), r.2)
  | Op.addMemory sid content tags mid t, st =>
    let r := handle_add_memory sid content tags mid t st; (r.1.map (fun _ => ()), r.2)
  | Op.removeMemory mid, st =>
    let r := handle_remove_memory mid st; (r.1.map (fun _ => ()), r.2)
  | Op.clearSession sid, st =>
    let r := handle_clear_session sid st; (r.1.map (fun _ => ()), r.2)
  | Op.deleteSession sid, st =>
    let r := handle_delete_session sid st; (r.1.map (fun _ => ()), r.2)

/-- Freshness of the generated ids: `uuid.uuid4()` never collides with an
existing key. Only creation operations generate ids. -/
def freshIds : Op → Store → Bool
  | Op.createSession _ sid _, st => (alookup sid st.sessions).isNone
  | Op.addMemory _ _ _ mid _, st => (alookup mid st.memories).isNone
  | _, _ => true

/-- Every stored record's `id` field equals its dictionary key (the code
always stores `d[new_id] = {"id": new_id, ...}`). -/
def idsOk (st : Store) : Prop :=
  (∀ p ∈ st.sessions, (Prod.snd p).id = p.1) ∧ (∀ p ∈ st.memories, (Prod.snd p).id = p.1)

/-- Every session's `memory_count` equals the number of memories whose
`session_id` is that session's id. -/
def countsOk (st : Store) : Prop :=
  ∀ p ∈ st.sessions, (Prod.snd p).memory_count
    = (get_session_memories st.memories (Prod.snd p).id).length

/-- Every memory's `session_id` names an existing session. -/
def noOrphans (st : Store) : Prop :=
  ∀ p ∈ st.memories, (alookup (Prod.snd p).session_id st.sessions).isSome = true

/-- Dictionary keys are unique (automatic for Python dicts). -/
def keysNodup (st : Store) : Prop :=
  (st.sessions.map Prod.fst).Nodup ∧ (st.memories.map Prod.fst).Nodup

/-- The reachable-state invariant of the store. -/
def Inv (st : Store) : Prop :=
  idsOk st ∧ countsOk st ∧ noOrphans st ∧ keysNodup st

/-- Modelled from the spec: the display transform of §4.2, stated in the
spec's own words — scanning the content left to right, each
case-insensitive occurrence of the literal query is replaced by `rep`
(the query wrapped in emphasis markers, original casing) and the scan
resumes after the occurrence (non-overlapping); other characters are kept. -/
def specHighlight (q rep : List Char) : List Char → List Char
  | [] => []
  | c :: cs =>
    if ciMatchAt q (c :: cs) then rep ++ specHighlight q rep (cs.drop (q.length - 1))
    else c :: specHighlight q rep cs
termination_by s => s.length
decreasing_by
  · simp only [List.length_drop, List.length_cons]
    omega
  · simp only [List.length_cons]
    omega

/-- String-level wrapper for the spec-side display transform. -/
def specHighlightStr (query content : String) : String :=
  String.mk (specHighlight query.toList ("**" ++ query ++ "**").toList content.toList)

/-- Example session used by concrete witnesses. -/
def sessA : Session := { id := "s1", name := "work", created_at := 0, memory_count := 1 }

/-- Example memory used by concrete witnesses (the spec's own search example). -/
def memA : Memory :=
  { id := "m1"
    session_id := "s1"
    content := "Build a drawing tutorial app"
    created_at := 1
    tags := ["tutorial"] }

/-- Example store with one session holding one memory. -/
def stA : Store := { sessions := [("s1", sessA)], memories := [("m1", memA)] }

/-- Example session with no memories yet. -/
def sessB : Session := { id := "s1", name := "work", created_at := 0, memory_count := 0 }

/-- Example store with one empty session. -/
def stB : Store := { sessions := [("s1", sessB)], memories := [] }

/-- Two memories with equal timestamps, inserted in the order `mem4a`, `mem4b`. -/
def mem4a : Memory :=
  { id := "m1", session_id := "s1", content := "a", created_at := 5, tags := [] }

/-- Second, later-inserted memory with the same timestamp as `mem4a`. -/
def mem4b : Memory :=
  { id := "m2", session_id := "s1", content := "b", created_at := 5, tags := [] }

/-- Session of the tie-break example store. -/
def sess4 : Session := { id := "s1", name := "work", created_at := 0, memory_count := 2 }

/-- Store exhibiting a `created_at` tie between two memories of one session. -/
def st4 : Store :=
  { sessions := [("s1", sess4)]
    memories := [("m1", mem4a), ("m2", mem4b)] }

instance (st : Store) : Decidable (idsOk st) := by unfold idsOk; infer_instance

instance (st : Store) : Decidable (countsOk st) := by unfold countsOk; infer_instance

instance (st : Store) : Decidable (noOrphans st) := by unfold noOrphans; infer_instance

instance (st : Store) : Decidable (keysNodup st) := by unfold keysNodup; infer_instance

instance (st : Store) : Decidable (Inv st) := by unfold Inv; infer_instance

/-! ## Association-list (dictionary) lemmas -/

theorem alookup_append_of_none {α : Type} {k : String} {l₁ : List (String × α)}
    (l₂ : List (String × α)) (h : alookup k l₁ = none) :
    alookup k (l₁ ++ l₂) = alookup k l₂ := by
  induction l₁ with
  | nil => simp
  | cons p l ih =>
    simp only [alookup] at h ⊢
    split at h
    · exact absurd h (by simp)
    · rename_i hpk
      rw [if_neg hpk]
      exact ih h

theorem alookup_eq_none_iff {α : Type} {k : String} {l : List (String × α)} :
    alookup k l = none ↔ ∀ p ∈ l, p.1 ≠ k := by
  induction l with
  | nil => simp [alookup]
  | cons p l ih =>
    simp only [alookup, List.mem_cons]
    split
    · simp_all
    · simp_all

theorem ainsert_of_none {α : Type} {k : String} {v : α} {l : List (String × α)}
    (h : alookup k l = none) : ainsert k v l = l ++ [(k, v)] := by
  simp [ainsert, h]

theorem alookup_concat_self {α : Type} {k : String} {v : α} {l : List (String × α)}
    (h : alookup k l = none) : alookup k (l ++ [(k, v)]) = some v := by
  rw [alookup_append_of_none _ h]; simp [alookup]

theorem alookup_mapUpd {α : Type} (k s : String) (f : α → α) (l : List (String × α)) :
    alookup k (mapUpd s f l) = if k = s then (alookup s l).map f else alookup k l := by
  induction l with
  | nil => simp [mapUpd, alookup]
  | cons p l ih =>
    simp only [mapUpd, List.map_cons, alookup] at ih ⊢
    by_cases hp : p.1 = s
    · by_cases hk : k = s
      · simp [hp, hk, alookup, ih]
      · have hsk : ¬ s = k := fun h => hk h.symm
        simp [hp, hk, alookup, ih, hsk]
    · by_cases hpk : p.1 = k
      · have : ¬ k = s := by rw [← hpk]; exact hp
        simp [hp, hpk, alookup, this]
      · simp [hp, hpk, alookup, ih]

theorem keys_mapUpd {α : Type} (s : String) (f : α → α) (l : List (String × α)) :
    (mapUpd s f l).map Prod.fst = l.map Prod.fst := by
  induction l with
  | nil => rfl
  | cons p l ih =>
    simp only [mapUpd, List.map_cons] at ih ⊢
    split <;> simp [ih]

theorem alookup_aerase {α : Type} (k s : String) (l : List (String × α)) :
    alookup k (aerase s l) = if k = s then none else alookup k l := by
  induction l with
  | nil => simp [aerase, alookup]
  | cons p l ih =>
    simp only [aerase, List.filter_cons] at ih ⊢
    by_cases hp : p.1 = s
    · by_cases hk : k = s
      · subst hk
        simp [hp, alookup, ih]
      · have hsk : ¬ s = k := fun h => hk h.symm
        simp [hp, hk, alookup, ih, hsk]
    · by_cases hpk : p.1 = k
      · have : ¬ k = s := by rw [← hpk]; exact hp
        simp [hp, hpk, alookup, this]
      · simp [hp, hpk, alookup, ih]

theorem alookup_mem {α : Type} {k : String} {v : α} {l : List (String × α)}
    (h : alookup k l = some v) : (k, v) ∈ l := by
  induction l with
  | nil => simp [alookup] at h
  | cons p l ih =>
    simp only [alookup] at h
    split at h
    · rename_i hp
      obtain rfl : p.2 = v := by simpa using h
      have : p = (k, p.2) := by rw [← hp]
      rw [← this]; simp
    · simp [ih h]

theorem alookup_of_mem_nodup {α : Type} {k : String} {v : α} {l : List (String × α)}
    (hnd : (l.map Prod.fst).Nodup) (h : (k, v) ∈ l) : alookup k l = some v := by
  induction l with
  | nil => simp at h
  | cons p l ih =>
    simp only [List.map_cons, List.nodup_cons] at hnd
    rcases List.mem_cons.mp h with h1 | h1
    · simp [alookup, ← h1]
    · have hk : p.1 ≠ k := by
        intro hk
        exact hnd.1 (by simpa [← hk] using List.mem_map_of_mem Prod.fst h1)
      simp [alookup, hk, ih hnd.2 h1]

theorem nodup_concat {α : Type} {k : String} (v : α) {l : List (String × α)}
    (hnd : (l.map Prod.fst).Nodup) (h : alookup k l = none) :
    ((l ++ [(k, v)]).map Prod.fst).Nodup := by
  rw [List.map_append, List.nodup_append]
  refine ⟨hnd, by simp, ?_⟩
  intro a ha hb
  simp only [List.map_cons, List.map_nil, List.mem_singleton] at hb
  obtain ⟨p, hp, rfl⟩ := List.mem_map.mp ha
  exact (alookup_eq_none_iff.mp h p hp) hb

/-! ## Lemmas about the memory-store views -/

theorem map_snd_filter_snd {α : Type} (q : α → Bool) (l : List (String × α)) :
    (l.filter (fun p => q p.2)).map Prod.snd = (l.map Prod.snd).filter q := by
  induction l with
  | nil => rfl
  | cons p l ih =>
    simp only [List.filter_cons, List.map_cons]
    by_cases h : q p.2 <;> simp [h, ih]

theorem get_session_memories_append (ms : List (String × Memory)) (k : String) (m : Memory)
    (sid : String) :
    get_session_memories (ms ++ [(k, m)]) sid
      = get_session_memories ms sid ++ (if m.session_id == sid then [m] else []) := by
  simp only [get_session_memories, List.map_append, List.filter_append, List.map_cons,
    List.map_nil, List.filter_cons, List.filter_nil]

theorem get_session_memories_removeSession (ms : List (String × Memory)) (sid s' : String) :
    get_session_memories (ms.filter (fun p => !((Prod.snd p).session_id == sid))) s'
      = if s' = sid then [] else get_session_memories ms s' := by
  have hv := map_snd_filter_snd (fun m => !(m.session_id == sid)) ms
  rw [get_session_memories, hv, List.filter_filter]
  by_cases h : s' = sid
  · subst h
    rw [if_pos rfl]
    apply List.filter_eq_nil_iff.mpr
    intro a _
    by_cases hx : a.session_id = s' <;> simp [hx]
  · rw [if_neg h, get_session_memories]
    apply List.filter_congr
    intro a _
    by_cases hx : a.session_id = s' <;> simp [hx, h]

theorem aerase_of_none {α : Type} {k : String} {ms : List (String × α)}
    (h : alookup k ms = none) : aerase k ms = ms := by
  apply List.filter_eq_self.mpr
  intro p hp
  simpa using alookup_eq_none_iff.mp h p hp

theorem delIds_eq_filter (ms : List (String × Memory)) (sid : String)
    (hid : ∀ p ∈ ms, (Prod.snd p).id = p.1)
    (hnd : (ms.map Prod.fst).Nodup) :
    ms.filter (fun p => !(((get_session_memories ms sid).map (fun m => m.id)).contains p.1))
      = ms.filter (fun p => !((Prod.snd p).session_id == sid)) := by
  apply List.filter_congr
  intro p hp
  have hiff : (((get_session_memories ms sid).map (fun m => m.id)).contains p.1 = true)
      ↔ (Prod.snd p).session_id = sid := by
    constructor
    · intro hc
      have hc' : p.1 ∈ (get_session_memories ms sid).map (fun m => m.id) := by simpa using hc
      obtain ⟨m, hm, hmid⟩ := List.mem_map.mp hc'
      have hm' := List.mem_filter.mp hm
      obtain ⟨q, hq, hq2⟩ := List.mem_map.mp hm'.1
      have hqid : q.1 = p.1 := by rw [← hid q hq, hq2, hmid]
      have : q = p := List.inj_on_of_nodup_map hnd hq hp hqid
      rw [← this, hq2]
      simpa using hm'.2
    · intro hb
      have : (Prod.snd p) ∈ get_session_memories ms sid := by
        apply List.mem_filter.mpr
        exact ⟨List.mem_map_of_mem Prod.snd hp, by simp [hb]⟩
      have : (Prod.snd p).id ∈ (get_session_memories ms sid).map (fun m => m.id) :=
        List.mem_map_of_mem _ this
      rw [hid p hp] at this
      simpa using this
  cases hA : (((get_session_memories ms sid).map (fun m => m.id)).contains p.1) with
  | true => simp [hiff.mp hA]
  | false =>
    have : ¬ (Prod.snd p).session_id = sid := fun hb => by
      rw [hiff.mpr hb] at hA; cases hA
    simp [this]

theorem get_session_memories_aerase_of_ne {ms : List (String × Memory)} {mid : String}
    {m : Memory} {s : String}
    (hnd : (ms.map Prod.fst).Nodup) (h : alookup mid ms = some m)
    (hs : m.session_id ≠ s) :
    get_session_memories (aerase mid ms) s = get_session_memories ms s := by
  induction ms with
  | nil => simp [alookup] at h
  | cons p l ih =>
    simp only [List.map_cons, List.nodup_cons] at hnd
    simp only [alookup] at h
    by_cases hp : p.1 = mid
    · rw [if_pos hp] at h
      obtain rfl : p.2 = m := by simpa using h
      have herase : aerase mid l = l := by
        apply aerase_of_none
        apply alookup_eq_none_iff.mpr
        intro q hq hqk
        exact hnd.1 (by rw [hp, ← hqk]; exact List.mem_map_of_mem Prod.fst hq)
      have hdrop : (!(p.1 == mid)) = false := by simp [hp]
      simp only [aerase, List.filter_cons, hdrop, Bool.false_eq_true, if_false]
      rw [show List.filter (fun p => !(p.1 == mid)) l = aerase mid l from rfl, herase]
      simp [get_session_memories, List.filter_cons, hs]
    · rw [if_neg hp] at h
      have hkeep : (!(p.1 == mid)) = true := by simp [hp]
      simp only [aerase, List.filter_cons, hkeep, if_true]
      have ihh := ih hnd.2 h
      simp only [aerase] at ihh
      simp only [get_session_memories, List.map_cons, List.filter_cons] at ihh ⊢
      rw [ihh]

/-! ## Lemmas about the stable descending sort -/

theorem insertDesc_perm (m : Memory) (l : List Memory) : (insertDesc m l).Perm (m :: l) := by
  induction l with
  | nil => simp [insertDesc]
  | cons y ys ih =>
    rw [insertDesc]
    split
    · exact List.Perm.refl _
    · exact (ih.cons y).trans (List.Perm.swap m y ys)

theorem sortByCreatedDesc_perm (l : List Memory) : (sortByCreatedDesc l).Perm l := by
  induction l with
  | nil => simp [sortByCreatedDesc]
  | cons x xs ih =>
    rw [show sortByCreatedDesc (x :: xs) = insertDesc x (sortByCreatedDesc xs) from rfl]
    exact (insertDesc_perm x _).trans (ih.cons x)

theorem mem_sortByCreatedDesc {a : Memory} {l : List Memory} :
    a ∈ sortByCreatedDesc l ↔ a ∈ l := (sortByCreatedDesc_perm l).mem_iff

theorem insertDesc_pairwise {m : Memory} {l : List Memory}
    (h : l.Pairwise (fun a b => b.created_at ≤ a.created_at)) :
    (insertDesc m l).Pairwise (fun a b => b.created_at ≤ a.created_at) := by
  induction l with
  | nil => simp [insertDesc]
  | cons y ys ih =>
    rw [List.pairwise_cons] at h
    rw [insertDesc]
    split
    · rename_i hle
      refine List.pairwise_cons.mpr ⟨?_, List.pairwise_cons.mpr h⟩
      intro z hz
      rcases List.mem_cons.mp hz with rfl | hz'
      · exact hle
      · exact le_trans (h.1 z hz') hle
    · rename_i hgt
      refine List.pairwise_cons.mpr ⟨?_, ih h.2⟩
      intro z hz
      have hz2 := (insertDesc_perm m ys).mem_iff.mp hz
      rcases List.mem_cons.mp hz2 with rfl | hz'
      · omega
      · exact h.1 z hz'

theorem sortByCreatedDesc_pairwise (l : List Memory) :
    (sortByCreatedDesc l).Pairwise (fun a b => b.created_at ≤ a.created_at) := by
  induction l with
  | nil => simp [sortByCreatedDesc]
  | cons x xs ih =>
    rw [show sortByCreatedDesc (x :: xs) = insertDesc x (sortByCreatedDesc xs) from rfl]
    exact insertDesc_pairwise ih

theorem filter_insertDesc (m : Memory) (l : List Memory) (t : Nat) :
    (insertDesc m l).filter (fun x => x.created_at == t)
      = if m.created_at == t then m :: l.filter (fun x => x.created_at == t)
        else l.filter (fun x => x.created_at == t) := by
  induction l with
  | nil => simp only [insertDesc, List.filter_cons, List.filter_nil]
  | cons y ys ih =>
    rw [insertDesc]
    split
    · rename_i hle
      simp only [List.filter_cons]
    · rename_i hgt
      simp only [List.filter_cons, ih]
      by_cases hy : y.created_at == t
      · have hyt : y.created_at = t := by simpa using hy
        have hmt : m.created_at ≠ t := by omega
        have hm : (m.created_at == t) = false := by simpa using hmt
        simp [hy, hm]
      · by_cases hm : m.created_at == t <;> simp [hy, hm]

theorem sortByCreatedDesc_filter_eq (l : List Memory) (t : Nat) :
    (sortByCreatedDesc l).filter (fun x => x.created_at == t)
      = l.filter (fun x => x.created_at == t) := by
  induction l with
  | nil => rfl
  | cons x xs ih =>
    rw [show sortByCreatedDesc (x :: xs) = insertDesc x (sortByCreatedDesc xs) from rfl,
      filter_insertDesc]
    simp only [List.filter_cons]
    by_cases hx : x.created_at == t <;> simp [hx, ih]

/-! ## Lemmas about the highlighting substitution -/

theorem ciMatchAt_nil {pat : List Char} (h : pat ≠ []) : ciMatchAt pat [] = false := by
  cases pat with
  | nil => exact absurd rfl h
  | cons c cs => simp [ciMatchAt, List.isPrefixOf]

theorem findCI_nil {pat : List Char} (h : pat ≠ []) : findCI pat [] = none := by
  simp [findCI, ciMatchAt_nil h]

theorem specHighlight_of_findCI_none {pat rep : List Char} (_hp : pat ≠ []) :
    ∀ {s : List Char}, findCI pat s = none → specHighlight pat rep s = s := by
  intro s
  induction s with
  | nil => intro _; simp [specHighlight]
  | cons c cs ih =>
    intro h
    simp only [findCI] at h
    by_cases hm : ciMatchAt pat (c :: cs)
    · rw [if_pos hm] at h; cases h
    · rw [if_neg hm] at h
      have hcs : findCI pat cs = none := by
        cases hfc : findCI pat cs
        · rfl
        · rw [hfc] at h; simp at h
      rw [specHighlight, if_neg hm, ih hcs]

theorem specHighlight_decomp {pat rep : List Char} (hp : pat ≠ []) :
    ∀ (s : List Char) (i : Nat), findCI pat s = some i →
      specHighlight pat rep s
        = s.take i ++ rep ++ specHighlight pat rep (s.drop (i + pat.length)) := by
  intro s
  induction s with
  | nil => intro i h; rw [findCI_nil hp] at h; cases h
  | cons c cs ih =>
    intro i h
    simp only [findCI] at h
    obtain ⟨k, hk⟩ : ∃ k, pat.length = k + 1 := by
      cases pat with
      | nil => exact absurd rfl hp
      | cons a as => exact ⟨as.length, rfl⟩
    by_cases hm : ciMatchAt pat (c :: cs)
    · rw [if_pos hm] at h
      obtain rfl : i = 0 := by simpa using h.symm
      rw [specHighlight, if_pos hm]
      simp [hk, List.drop_succ_cons]
    · rw [if_neg hm] at h
      obtain ⟨j, hj, rfl⟩ : ∃ j, findCI pat cs = some j ∧ i = j + 1 := by
        cases hfc : findCI pat cs
        · rw [hfc] at h; cases h
        · rw [hfc] at h
          simp at h
          exact ⟨_, rfl, by omega⟩
      rw [specHighlight, if_neg hm, ih j hj]
      have harr : j + 1 + pat.length = (j + pat.length) + 1 := by omega
      rw [harr, List.take_succ_cons, List.drop_succ_cons]
      simp

theorem reSubCI_eq_specHighlight {pat rep : List Char} (hp : pat ≠ []) :
    ∀ (fuel : Nat) (s : List Char), s.length ≤ fuel →
      reSubCI fuel pat rep s = specHighlight pat rep s := by
  intro fuel
  induction fuel with
  | zero =>
    intro s hs
    obtain rfl : s = [] := List.length_eq_zero.mp (Nat.le_zero.mp hs)
    simp [reSubCI, specHighlight]
  | succ f ih =>
    intro s hs
    cases hfc : findCI pat s with
    | none =>
      rw [specHighlight_of_findCI_none hp hfc]
      simp [reSubCI, hfc]
    | some i =>
      rw [specHighlight_decomp hp s i hfc]
      simp only [reSubCI, hfc]
      have hlen : 1 ≤ pat.length := by
        cases pat with
        | nil => exact absurd rfl hp
        | cons a as => simp
      have hfuel : (s.drop (i + pat.length)).length ≤ f := by
        rw [List.length_drop]
        omega
      rw [ih _ hfuel]

theorem toList_ne_nil {s : String} (h : s ≠ "") : s.toList ≠ [] := by
  intro hnil
  apply h
  apply String.ext
  simpa [String.toList] using hnil

theorem pyHighlight_eq_specHighlightStr {query : String} (content : String)
    (h : query ≠ "") : pyHighlight query content = specHighlightStr query content := by
  rw [pyHighlight, specHighlightStr]
  rw [reSubCI_eq_specHighlight (toList_ne_nil h) _ _ (le_refl _)]

theorem pyStrip_ne_empty {s : String} (h : pyStrip s ≠ "") : s ≠ "" := by
  intro he
  exact h (by rw [he]; rfl)

/-! ## Preservation of the store invariant -/

theorem alookup_append_left {α : Type} {k : String} {l₁ : List (String × α)}
    (l₂ : List (String × α)) (h : (alookup k l₁).isSome = true) :
    alookup k (l₁ ++ l₂) = alookup k l₁ := by
  induction l₁ with
  | nil => simp [alookup] at h
  | cons p l ih =>
    simp only [alookup, List.cons_append] at h ⊢
    split at h
    · simp_all [alookup]
    · simp_all [alookup, ih h]

theorem isSome_alookup_mapUpd {α : Type} (k s : String) (f : α → α)
    (l : List (String × α)) :
    (alookup k (mapUpd s f l)).isSome = (alookup k l).isSome := by
  rw [alookup_mapUpd]
  by_cases h : k = s
  · subst h; simp
  · rw [if_neg h]

theorem nodup_keys_filter {α : Type} (q : String × α → Bool) {l : List (String × α)}
    (h : (l.map Prod.fst).Nodup) : ((l.filter q).map Prod.fst).Nodup :=
  ((List.filter_sublist l).map Prod.fst).nodup h

theorem inv_create {st : Store} (name sid : String) (t : Nat)
    (hInv : Inv st) (hfresh : alookup sid st.sessions = none) :
    Inv (handle_create_session name sid t st).2 := by
  obtain ⟨hids, hcounts, horph, hnd⟩ := hInv
  rw [handle_create_session]
  split
  · exact ⟨hids, hcounts, horph, hnd⟩
  · dsimp only
    rw [ainsert_of_none hfresh]
    set sess : Session := { id := sid, name := pyStrip name, created_at := t, memory_count := 0 }
    have hnomem : get_session_memories st.memories sid = [] := by
      apply List.filter_eq_nil_iff.mpr
      intro m hm hbeq
      obtain ⟨q, hq, rfl⟩ := List.mem_map.mp hm
      have := horph q hq
      rw [show (Prod.snd q).session_id = sid by simpa using hbeq, hfresh] at this
      cases this
    refine ⟨⟨?_, hids.2⟩, ?_, ?_, ⟨nodup_concat sess hnd.1 hfresh, hnd.2⟩⟩
    · intro p hp
      rcases List.mem_append.mp hp with hp1 | hp1
      · exact hids.1 p hp1
      · rw [List.mem_singleton.mp hp1]
    · intro p hp
      rcases List.mem_append.mp hp with hp1 | hp1
      · exact hcounts p hp1
      · rw [List.mem_singleton.mp hp1]
        simp [sess, hnomem]
    · intro p hp
      rw [alookup_append_left _ (horph p hp)]
      exact horph p hp

theorem inv_add {st : Store} (sid content : String) (tags : List String) (mid : String)
    (t : Nat) (hInv : Inv st) (hfresh : alookup mid st.memories = none) :
    Inv (handle_add_memory sid content tags mid t st).2 := by
  obtain ⟨hids, hcounts, horph, hnd⟩ := hInv
  rw [handle_add_memory]
  split
  · exact ⟨hids, hcounts, horph, hnd⟩
  · split
    · exact ⟨hids, hcounts, horph, hnd⟩
    · split
      · exact ⟨hids, hcounts, horph, hnd⟩
      · rename_i hsid hcont hexists
        have h0 : alookup sid st.sessions ≠ none := by
          simpa [session_exists] using hexists
        have hexists' : (alookup sid st.sessions).isSome = true :=
          Option.ne_none_iff_isSome.mp h0
        dsimp only
        rw [update_session_memory_count]
        set mrec : Memory :=
          { id := mid, session_id := sid, content := pyStrip content, created_at := t,
            tags := tags }
        rw [show ainsert mid mrec st.memories = st.memories ++ [(mid, mrec)] from
          ainsert_of_none hfresh]
        refine ⟨⟨?_, ?_⟩, ?_, ?_, ⟨?_, nodup_concat mrec hnd.2 hfresh⟩⟩
        · intro p hp
          obtain ⟨q, hq, rfl⟩ := List.mem_map.mp hp
          split <;> simp_all [hids.1 q hq]
        · intro p hp
          rcases List.mem_append.mp hp with hp1 | hp1
          · exact hids.2 p hp1
          · rw [List.mem_singleton.mp hp1]
        · intro p hp
          obtain ⟨q, hq, hpq⟩ := List.mem_map.mp hp
          by_cases hqs : q.1 = sid
          · rw [if_pos hqs] at hpq
            rw [← hpq]
            simp only
            have hqid : (Prod.snd q).id = sid := by rw [hids.1 q hq, hqs]
            rw [hqid]
          · rw [if_neg hqs] at hpq
            rw [← hpq]
            have hqid : (Prod.snd q).id ≠ sid := by rw [hids.1 q hq]; exact hqs
            rw [get_session_memories_append]
            have hne : ¬ sid = (Prod.snd q).id := fun h => hqid h.symm
            have : (mrec.session_id == (Prod.snd q).id) = false := by
              simp [mrec, hne]
            rw [this]
            simpa using hcounts q hq
        · intro p hp
          rw [isSome_alookup_mapUpd]
          rcases List.mem_append.mp hp with hp1 | hp1
          · exact horph p hp1
          · rw [List.mem_singleton.mp hp1]
            simpa [mrec] using hexists'
        · rw [keys_mapUpd]
          exact hnd.1

theorem idsOk_mapUpd_count {l : List (String × Session)} {s : String} {n : Nat}
    (h : ∀ p ∈ l, (Prod.snd p).id = p.1) :
    ∀ p ∈ mapUpd s (fun sess => { sess with memory_count := n }) l,
      (Prod.snd p).id = p.1 := by
  intro p hp
  obtain ⟨q, hq, hpq⟩ := List.mem_map.mp hp
  by_cases hqs : q.1 = s
  · rw [if_pos hqs] at hpq
    rw [← hpq]
    simpa using h q hq
  · rw [if_neg hqs] at hpq
    rw [← hpq]
    exact h q hq

theorem inv_remove {st : Store} (mid : String) (hInv : Inv st) :
    Inv (handle_remove_memory mid st).2 := by
  obtain ⟨hids, hcounts, horph, hnd⟩ := hInv
  rw [handle_remove_memory]
  split
  · exact ⟨hids, hcounts, horph, hnd⟩
  · split
    · exact ⟨hids, hcounts, horph, hnd⟩
    · rename_i m hm
      dsimp only
      rw [update_session_memory_count]
      refine ⟨⟨idsOk_mapUpd_count hids.1, ?_⟩, ?_, ?_, ⟨?_, ?_⟩⟩
      · intro p hp
        exact hids.2 p (List.mem_of_mem_filter hp)
      · intro p hp
        obtain ⟨q, hq, hpq⟩ := List.mem_map.mp hp
        by_cases hqs : q.1 = m.session_id
        · rw [if_pos hqs] at hpq
          rw [← hpq]
          simp only
          have hqid : ({ q.2 with
              memory_count :=
                (get_session_memories (aerase mid st.memories) m.session_id).length } :
                Session).id = m.session_id := by
            simpa using (hids.1 q hq).trans hqs
          rw [hqid]
        · rw [if_neg hqs] at hpq
          rw [← hpq]
          have hqid : (Prod.snd q).id = q.1 := hids.1 q hq
          have hne : m.session_id ≠ (Prod.snd q).id := by
            rw [hqid]; exact fun h => hqs h.symm
          rw [get_session_memories_aerase_of_ne hnd.2 hm hne]
          exact hcounts q hq
      · intro p hp
        rw [isSome_alookup_mapUpd]
        exact horph p (List.mem_of_mem_filter hp)
      · rw [keys_mapUpd]
        exact hnd.1
      · exact nodup_keys_filter _ hnd.2

theorem inv_clear {st : Store} (sid : String) (hInv : Inv st) :
    Inv (handle_clear_session sid st).2 := by
  obtain ⟨hids, hcounts, horph, hnd⟩ := hInv
  rw [handle_clear_session]
  split
  · exact ⟨hids, hcounts, horph, hnd⟩
  · split
    · exact ⟨hids, hcounts, horph, hnd⟩
    · dsimp only
      rw [update_session_memory_count]
      rw [delIds_eq_filter st.memories sid hids.2 hnd.2]
      refine ⟨⟨idsOk_mapUpd_count hids.1, ?_⟩, ?_, ?_, ⟨?_, ?_⟩⟩
      · intro p hp
        exact hids.2 p (List.mem_of_mem_filter hp)
      · intro p hp
        obtain ⟨q, hq, hpq⟩ := List.mem_map.mp hp
        by_cases hqs : q.1 = sid
        · rw [if_pos hqs] at hpq
          rw [← hpq]
          simp only
          have hqid : ({ q.2 with
              memory_count :=
                (get_session_memories
                  (st.memories.filter (fun p => !((Prod.snd p).session_id == sid)))
                  sid).length } : Session).id = sid := by
            simpa using (hids.1 q hq).trans hqs
          rw [hqid]
        · rw [if_neg hqs] at hpq
          rw [← hpq]
          have hqid : (Prod.snd q).id = q.1 := hids.1 q hq
          rw [get_session_memories_removeSession,
            if_neg (by rw [hqid]; exact hqs)]
          exact hcounts q hq
      · intro p hp
        rw [isSome_alookup_mapUpd]
        exact horph p (List.mem_of_mem_filter hp)
      · rw [keys_mapUpd]
        exact hnd.1
      · exact nodup_keys_filter _ hnd.2

theorem inv_delete {st : Store} (sid : String) (hInv : Inv st) :
    Inv (handle_delete_session sid st).2 := by
  obtain ⟨hids, hcounts, horph, hnd⟩ := hInv
  rw [handle_delete_session]
  split
  · exact ⟨hids, hcounts, horph, hnd⟩
  · split
    · exact ⟨hids, hcounts, horph, hnd⟩
    · rename_i sess hsess
      dsimp only
      rw [delIds_eq_filter st.memories sid hids.2 hnd.2]
      refine ⟨⟨?_, ?_⟩, ?_, ?_, ⟨?_, ?_⟩⟩
      · intro p hp
        exact hids.1 p (List.mem_of_mem_filter hp)
      · intro p hp
        exact hids.2 p (List.mem_of_mem_filter hp)
      · intro p hp
        simp only [aerase] at hp
        have hp' := List.mem_filter.mp hp
        have hpne : p.1 ≠ sid := by simpa using hp'.2
        have hidp : (Prod.snd p).id = p.1 := hids.1 p hp'.1
        rw [get_session_memories_removeSession, if_neg (by rw [hidp]; exact hpne)]
        exact hcounts p hp'.1
      · intro p hp
        have hp' := List.mem_filter.mp hp
        have hpsid : (Prod.snd p).session_id ≠ sid := by simpa using hp'.2
        rw [alookup_aerase, if_neg hpsid]
        exact horph p hp'.1
      · exact nodup_keys_filter _ hnd.1
      · exact nodup_keys_filter _ hnd.2

theorem inv_step (op : Op) {st : Store} (hInv : Inv st) (hfresh : freshIds op st = true) :
    Inv (runOp op st).2 := by
  cases op with
  | createSession name sid t =>
    have hf : alookup sid st.sessions = none := by
      simpa [freshIds, Option.isNone_iff_eq_none] using hfresh
    simpa [runOp] using inv_create name sid t ⟨hInv.1, hInv.2.1, hInv.2.2.1, hInv.2.2.2⟩ hf
  | addMemory sid content tags mid t =>
    have hf : alookup mid st.memories = none := by
      simpa [freshIds, Option.isNone_iff_eq_none] using hfresh
    simpa [runOp] using
      inv_add sid content tags mid t ⟨hInv.1, hInv.2.1, hInv.2.2.1, hInv.2.2.2⟩ hf
  | removeMemory mid => simpa [runOp] using inv_remove mid hInv
  | clearSession sid => simpa [runOp] using inv_clear sid hInv
  | deleteSession sid => simpa [runOp] using inv_delete sid hInv

/-! ## Search helper lemmas -/

theorem query_ne_of_ok {query : String} {sid? : Option String} {tags : List String}
    {st : Store} {results : List (Memory × String)}
    (h : handle_search_memories query sid? tags st = Except.ok results) :
    pyStrip query ≠ "" := by
  intro hq
  rw [handle_search_memories.eq_def, if_pos hq] at h
  cases h

theorem searchResults_of_ok {query : String} {sid? : Option String} {tags : List String}
    {st : Store} {results : List (Memory × String)}
    (h : handle_search_memories query sid? tags st = Except.ok results) :
    results = searchResults query tags (searchUniverse sid? st) := by
  rw [handle_search_memories.eq_def] at h
  split at h
  · cases h
  · cases sid? with
    | none => rw [searchUniverse]; exact (Except.ok.inj h).symm
    | some sid =>
      dsimp only at h
      by_cases hsid : sid ≠ ""
      · rw [if_pos hsid] at h
        split at h
        · rw [searchUniverse, if_pos hsid]
          exact (Except.ok.inj h).symm
        · cases h
      · rw [if_neg hsid] at h
        rw [searchUniverse, if_neg hsid]
        exact (Except.ok.inj h).symm

theorem mem_searchResults {query : String} {tags : List String} {univ : List Memory}
    {m : Memory} :
    (∃ d, (m, d) ∈ searchResults query tags univ)
      ↔ m ∈ univ ∧ matchesQuery (pyLower (pyStrip query)).toList tags m = true := by
  rw [searchResults]
  constructor
  · rintro ⟨d, hd⟩
    obtain ⟨a, ha, had⟩ := List.mem_map.mp hd
    obtain rfl : a = m := congrArg Prod.fst had
    exact List.mem_filter.mp (mem_sortByCreatedDesc.mp ha)
  · intro hm2
    refine ⟨displayContent query m, List.mem_map_of_mem _ ?_⟩
    exact mem_sortByCreatedDesc.mpr (List.mem_filter.mpr hm2)

/-! ## The claims -/

/-- Claim C3: a memory of the search universe appears in the search results
iff the trimmed, lower-cased query is a substring of its lower-cased content
and, when the tag filter is non-empty, at least one filter tag occurs
verbatim (case-sensitive, exact) among the memory's tags — an any-match
policy. -/
theorem claim3_search_match (query : String) (sid? : Option String) (tags : List String)
    (st : Store) (results : List (Memory × String))
    (h : handle_search_memories query sid? tags st = Except.ok results)
    (m : Memory) (hm : m ∈ searchUniverse sid? st) :
    (∃ d, (m, d) ∈ results)
      ↔ (subOcc (pyLower (pyStrip query)).toList (pyLower m.content).toList = true
          ∧ (tags ≠ [] → ∃ tg ∈ tags, tg ∈ m.tags)) := by
  rw [searchResults_of_ok h, mem_searchResults]
  rw [matchesQuery]
  constructor
  · rintro ⟨-, hmatch⟩
    rw [Bool.and_eq_true] at hmatch
    refine ⟨hmatch.1, ?_⟩
    intro htags
    have h2 := hmatch.2
    rw [Bool.or_eq_true] at h2
    rcases h2 with h2 | h2
    · exact absurd (List.isEmpty_iff.mp h2) htags
    · obtain ⟨tg, htg, htg2⟩ := List.any_eq_true.mp h2
      exact ⟨tg, htg, by simpa using htg2⟩
  · rintro ⟨hsub, htags⟩
    refine ⟨hm, ?_⟩
    rw [Bool.and_eq_true]
    refine ⟨hsub, ?_⟩
    rw [Bool.or_eq_true]
    cases hte : tags.isEmpty
    · right
      obtain ⟨tg, htg, htg2⟩ := htags (by simpa [List.isEmpty_iff] using hte)
      exact List.any_eq_true.mpr ⟨tg, htg, by simpa using htg2⟩
    · left; rfl

/-- Claim C3 witness: the spec's own example on the concrete store. -/
theorem claim3_witness :
    (∃ d, (memA, d) ∈ [(memA, "Build a drawing tutorial **app**")])
      ↔ (subOcc (pyLower (pyStrip "app")).toList (pyLower memA.content).toList = true
          ∧ ((["tutorial"] : List String) ≠ [] → ∃ tg ∈ ["tutorial"], tg ∈ memA.tags)) :=
  claim3_search_match "app" (some "s1") ["tutorial"] stA
    [(memA, "Build a drawing tutorial **app**")] (by rfl) memA (by decide)

/-- Claim C9: every returned search result pairs an unmodified stored memory
record with a display string equal to the spec's transform — each
case-insensitive, non-overlapping occurrence of the literal query replaced
left to right by the query wrapped in emphasis markers, in the query's
original casing. The store itself is not touched: search returns no new
store, and the memory in the result is exactly the stored record. -/
theorem claim9_highlight (query : String) (sid? : Option String) (tags : List String)
    (st : Store) (results : List (Memory × String))
    (h : handle_search_memories query sid? tags st = Except.ok results) :
    ∀ m d, (m, d) ∈ results →
      (∃ k, (k, m) ∈ st.memories) ∧ d = specHighlightStr query m.content := by
  intro m d hmd
  rw [searchResults_of_ok h, searchResults] at hmd
  obtain ⟨a, ha, had⟩ := List.mem_map.mp hmd
  have h1 : m = a := (congrArg Prod.fst had).symm
  have h2 : d = displayContent query a := (congrArg Prod.snd had).symm
  rw [h1, h2]
  have hmem := List.mem_filter.mp (mem_sortByCreatedDesc.mp ha)
  have hsub : subOcc (pyLower (pyStrip query)).toList (pyLower a.content).toList = true := by
    have := hmem.2
    rw [matchesQuery, Bool.and_eq_true] at this
    exact this.1
  constructor
  · have hmu : a ∈ st.memories.map Prod.snd := by
      rcases sid? with - | sid
      · simpa [searchUniverse] using hmem.1
      · by_cases hsid : sid ≠ ""
        · have := hmem.1
          rw [searchUniverse, if_pos hsid, get_session_memories] at this
          exact List.mem_of_mem_filter this
        · have := hmem.1
          rw [searchUniverse, if_neg hsid] at this
          exact this
    obtain ⟨p, hp, hp2⟩ := List.mem_map.mp hmu
    exact ⟨p.1, by rw [show (p.1, a) = p from by rw [← hp2]]; exact hp⟩
  · rw [displayContent, if_pos hsub]
    exact pyHighlight_eq_specHighlightStr a.content
      (pyStrip_ne_empty (query_ne_of_ok h))

/-- Claim C9 witness: the concrete search highlights the query occurrence. -/
theorem claim9_witness :
    (∃ k, (k, memA) ∈ stA.memories)
      ∧ "Build a drawing tutorial **app**" = specHighlightStr "app" memA.content :=
  claim9_highlight "app" (some "s1") ["tutorial"] stA
    [(memA, "Build a drawing tutorial **app**")] (by rfl)
    memA "Build a drawing tutorial **app**" (by decide)

/-- Claim C10: supplying `session_id` as the empty string to the search is
the same as omitting it — the search ranges over all memories and never
reports `SessionNotFound`. -/
theorem claim10_empty_session_id (query : String) (tags : List String) (st : Store) :
    handle_search_memories query (some "") tags st
        = handle_search_memories query none tags st
    ∧ handle_search_memories query (some "") tags st
        ≠ Except.error Err.sessionNotFound := by
  constructor
  · rw [handle_search_memories.eq_def, handle_search_memories.eq_def]
    split
    · rfl
    · simp
  · intro hcon
    rw [handle_search_memories.eq_def] at hcon
    split at hcon
    · cases hcon
    · simp at hcon

/-- Claim C10 witness at a concrete store and query. -/
theorem claim10_witness :
    handle_search_memories "app" (some "") [] stA
      = handle_search_memories "app" none [] stA :=
  (claim10_empty_session_id "app" [] stA).1

/-- Claim C1: after any mutating operation on an invariant-satisfying store
(with the generated ids fresh, as `uuid4` guarantees), every session's
`memory_count` equals the number of memories whose `session_id` is that
session's id. -/
theorem claim1_memory_count_invariant (op : Op) (st : Store)
    (hInv : Inv st) (hfresh : freshIds op st = true) :
    countsOk (runOp op st).2 :=
  (inv_step op hInv hfresh).2.1

/-- Claim C1 witness: adding a memory to the concrete store keeps the counts. -/
theorem claim1_witness :
    Inv stA ∧ freshIds (Op.addMemory "s1" "more notes" [] "m2" 2) stA = true
      ∧ countsOk (runOp (Op.addMemory "s1" "more notes" [] "m2" 2) stA).2 :=
  ⟨by decide, by decide,
    claim1_memory_count_invariant (Op.addMemory "s1" "more notes" [] "m2" 2) stA
      (by decide) (by decide)⟩

/-- Claim C2: deleting an existing session succeeds, reports the number of
memories removed, removes the session and exactly the memories referencing
it (cascade, no orphans), and a subsequent `get_memories` on the deleted id
reports `SessionNotFound`; moreover every operation preserves the no-orphan
property. -/
theorem claim2_cascade_delete (st : Store) (sid : String) (sess : Session)
    (hInv : Inv st) (hsid : sid ≠ "") (hsess : alookup sid st.sessions = some sess) :
    (handle_delete_session sid st).1
        = Except.ok (sess, (get_session_memories st.memories sid).length)
    ∧ alookup sid (handle_delete_session sid st).2.sessions = none
    ∧ (handle_delete_session sid st).2.memories
        = st.memories.filter (fun p => !((Prod.snd p).session_id == sid))
    ∧ handle_get_memories sid (handle_delete_session sid st).2
        = Except.error Err.sessionNotFound
    ∧ ∀ op : Op, freshIds op st = true → noOrphans (runOp op st).2 := by
  have hres : handle_delete_session sid st
      = (Except.ok (sess,
            ((get_session_memories st.memories sid).map (fun m => m.id)).length),
         { sessions := aerase sid st.sessions,
           memories := st.memories.filter (fun p =>
             !(((get_session_memories st.memories sid).map (fun m => m.id)).contains p.1)) }) := by
    rw [handle_delete_session, if_neg hsid, hsess]
  have hnone : alookup sid (handle_delete_session sid st).2.sessions = none := by
    rw [hres]
    dsimp only
    rw [alookup_aerase, if_pos rfl]
  refine ⟨?_, hnone, ?_, ?_, fun op hf => (inv_step op hInv hf).2.2.1⟩
  · rw [hres]
    simp [List.length_map]
  · rw [hres]
    dsimp only
    exact delIds_eq_filter st.memories sid hInv.1.2 hInv.2.2.2.2
  · have : session_exists sid (handle_delete_session sid st).2 = false := by
      rw [session_exists, hnone]
      rfl
    simp [handle_get_memories, hsid, this]

/-- Claim C2 witness: deleting the only session of the concrete store. -/
theorem claim2_witness :
    (handle_delete_session "s1" stA).1 = Except.ok (sessA, 1)
    ∧ alookup "s1" (handle_delete_session "s1" stA).2.sessions = none
    ∧ (handle_delete_session "s1" stA).2.memories = []
    ∧ handle_get_memories "s1" (handle_delete_session "s1" stA).2
        = Except.error Err.sessionNotFound :=
  ⟨(claim2_cascade_delete stA "s1" sessA (by decide) (by decide) (by decide)).1,
   (claim2_cascade_delete stA "s1" sessA (by decide) (by decide) (by decide)).2.1,
   (claim2_cascade_delete stA "s1" sessA (by decide) (by decide) (by decide)).2.2.1,
   (claim2_cascade_delete stA "s1" sessA (by decide) (by decide) (by decide)).2.2.2.1⟩

/-- Claim C4, counterexample: two memories of one session with equal
`created_at`, inserted as `mem4a` then `mem4b`; `get_memories` returns the
earlier-inserted `mem4a` first, not the later-inserted one as the claim
("ties broken by reverse insertion order") requires. -/
theorem claim4_counterexample :
    handle_get_memories "s1" st4 = Except.ok [mem4a, mem4b]
    ∧ get_session_memories st4.memories "s1" = [mem4a, mem4b]
    ∧ mem4a.created_at = mem4b.created_at
    ∧ mem4a ≠ mem4b
    ∧ ¬ ([mem4a, mem4b].indexOf mem4b < [mem4a, mem4b].indexOf mem4a) :=
  ⟨by rfl, by rfl, by rfl, by decide, by decide⟩

/-- Claim C4, amended: `get_memories` on an existing session returns all of
the session's memories sorted by `created_at` descending, with ties broken
by insertion order (the earlier-inserted memory first) — Python's stable
sort with `reverse=True` keeps equal keys in their original order. The
tie policy is stated as: filtering the output to any fixed timestamp
yields the memories in store (insertion) order. -/
theorem claim4_amended (sid : String) (st : Store) (sess : Session)
    (hsid : sid ≠ "") (hsess : alookup sid st.sessions = some sess) :
    handle_get_memories sid st
        = Except.ok (sortByCreatedDesc (get_session_memories st.memories sid))
    ∧ (sortByCreatedDesc (get_session_memories st.memories sid)).Perm
        (get_session_memories st.memories sid)
    ∧ (sortByCreatedDesc (get_session_memories st.memories sid)).Pairwise
        (fun a b => b.created_at ≤ a.created_at)
    ∧ ∀ t : Nat,
        (sortByCreatedDesc (get_session_memories st.memories sid)).filter
            (fun m => m.created_at == t)
          = (get_session_memories st.memories sid).filter
              (fun m => m.created_at == t) := by
  refine ⟨?_, sortByCreatedDesc_perm _, sortByCreatedDesc_pairwise _,
    fun t => sortByCreatedDesc_filter_eq _ t⟩
  have hex : session_exists sid st = true := by rw [session_exists, hsess]; rfl
  simp [handle_get_memories, hsid, hex]

/-- Claim C4 witness (for the amended claim) at the tie-break store. -/
theorem claim4_amended_witness :
    handle_get_memories "s1" st4
        = Except.ok (sortByCreatedDesc (get_session_memories st4.memories "s1"))
    ∧ (sortByCreatedDesc (get_session_memories st4.memories "s1")).Perm
        (get_session_memories st4.memories "s1")
    ∧ (sortByCreatedDesc (get_session_memories st4.memories "s1")).Pairwise
        (fun a b => b.created_at ≤ a.created_at) :=
  ⟨(claim4_amended "s1" st4 sess4 (by decide) (by decide)).1,
   (claim4_amended "s1" st4 sess4 (by decide) (by decide)).2.1,
   (claim4_amended "s1" st4 sess4 (by decide) (by decide)).2.2.1⟩

/-- Claim C5: `add_memory` checks its failure conditions in the fixed order
session id present, content non-blank after stripping, session existence;
the first failing check determines the single reported error. In particular
blank content reports `EmptyContent` even when the session does not exist. -/
theorem claim5_add_memory_error_order (sid content : String) (tags : List String)
    (mid : String) (t : Nat) (st : Store) :
    (handle_add_memory sid content tags mid t st).1
      = (if sid = "" then Except.error Err.emptySessionId
         else if pyStrip content = "" then Except.error Err.emptyContent
         else if session_exists sid st then
           Except.ok { id := mid, session_id := sid, content := pyStrip content,
                       created_at := t, tags := tags }
         else Except.error Err.sessionNotFound) := by
  rw [handle_add_memory]
  by_cases h1 : sid = ""
  · rw [if_pos h1, if_pos h1]
  · rw [if_neg h1, if_neg h1]
    by_cases h2 : pyStrip content = ""
    · rw [if_pos h2, if_pos h2]
    · rw [if_neg h2, if_neg h2]
      cases h3 : session_exists sid st
      · simp [h3]
      · simp [h3]

/-- Claim C6: a mutating operation that reports an error leaves both stores
exactly as they were; in particular creating a session with a blank name
reports `EmptyName` and stores nothing. -/
theorem claim6_errors_leave_store_unchanged :
    (∀ (op : Op) (st : Store) (e : Err),
        (runOp op st).1 = Except.error e → (runOp op st).2 = st)
    ∧ ∀ (name sid : String) (t : Nat) (st : Store), pyStrip name = "" →
        handle_create_session name sid t st = (Except.error Err.emptyName, st) := by
  constructor
  · intro op st e h
    cases op with
    | createSession name sid t =>
      by_cases hc : pyStrip name = ""
      · simp [runOp, handle_create_session, hc]
      · simp [runOp, handle_create_session, hc, Except.map] at h
    | addMemory sid content tags mid t =>
      by_cases h1 : sid = ""
      · simp [runOp, handle_add_memory, h1]
      · by_cases h2 : pyStrip content = ""
        · simp [runOp, handle_add_memory, h1, h2]
        · cases h3 : session_exists sid st
          · simp [runOp, handle_add_memory, h1, h2, h3]
          · simp [runOp, handle_add_memory, h1, h2, h3, Except.map] at h
    | removeMemory mid =>
      by_cases h1 : mid = ""
      · simp [runOp, handle_remove_memory, h1]
      · cases h2 : alookup mid st.memories with
        | none => simp [runOp, handle_remove_memory, h1, h2]
        | some m => simp [runOp, handle_remove_memory, h1, h2, Except.map] at h
    | clearSession sid =>
      by_cases h1 : sid = ""
      · simp [runOp, handle_clear_session, h1]
      · cases h2 : session_exists sid st
        · simp [runOp, handle_clear_session, h1, h2]
        · simp [runOp, handle_clear_session, h1, h2, Except.map] at h
    | deleteSession sid =>
      by_cases h1 : sid = ""
      · simp [runOp, handle_delete_session, h1]
      · cases h2 : alookup sid st.sessions with
        | none => simp [runOp, handle_delete_session, h1, h2]
        | some sess => simp [runOp, handle_delete_session, h1, h2, Except.map] at h
  · intro name sid t st hname
    rw [handle_create_session, if_pos hname]

/-- Claim C6 witness: a whitespace-only session name is rejected and the
store is untouched. -/
theorem claim6_witness :
    (runOp (Op.createSession " " "s9" 7) stA).2 = stA
    ∧ handle_create_session " " "s9" 7 stA = (Except.error Err.emptyName, stA) :=
  ⟨claim6_errors_leave_store_unchanged.1 (Op.createSession " " "s9" 7) stA
      Err.emptyName (by rfl),
   claim6_errors_leave_store_unchanged.2 " " "s9" 7 stA (by decide)⟩

theorem handle_get_memories_of_exists {sid : String} {st : Store}
    (hsid : sid ≠ "") (hex : session_exists sid st = true) :
    handle_get_memories sid st
      = Except.ok (sortByCreatedDesc (get_session_memories st.memories sid)) := by
  simp [handle_get_memories, hsid, hex]

/-- Claim C7: adding a memory with non-blank content and any tag list to an
existing, previously empty session and then reading it back returns exactly
one memory carrying the stripped content and the tag sequence unchanged, in
the supplied order. -/
theorem claim7_add_then_get_roundtrip (sid content : String) (tags : List String)
    (mid : String) (t : Nat) (st : Store) (sess : Session)
    (hsid : sid ≠ "") (hcontent : pyStrip content ≠ "")
    (hsess : alookup sid st.sessions = some sess)
    (hempty : get_session_memories st.memories sid = [])
    (hfresh : alookup mid st.memories = none) :
    handle_get_memories sid (handle_add_memory sid content tags mid t st).2
      = Except.ok [{ id := mid, session_id := sid, content := pyStrip content,
                     created_at := t, tags := tags }] := by
  have hex : session_exists sid st = true := by rw [session_exists, hsess]; rfl
  have hadd : (handle_add_memory sid content tags mid t st).2
      = update_session_memory_count sid
          { st with memories := st.memories ++ [(mid,
              { id := mid, session_id := sid, content := pyStrip content,
                created_at := t, tags := tags })] } := by
    have hcond : (!(session_exists sid st)) ≠ true := by rw [hex]; simp
    rw [handle_add_memory, if_neg hsid, if_neg hcontent, if_neg hcond]
    dsimp only
    rw [ainsert_of_none hfresh]
  rw [hadd]
  rw [handle_get_memories_of_exists hsid (by
    rw [update_session_memory_count, session_exists]
    dsimp only
    rw [isSome_alookup_mapUpd]
    exact hex)]
  rw [update_session_memory_count]
  dsimp only
  rw [get_session_memories_append, hempty]
  simp [sortByCreatedDesc, insertDesc]

/-- Claim C7 witness: the spec's round-trip example on the empty session. -/
theorem claim7_witness :
    handle_get_memories "s1" (handle_add_memory "s1" "Valid content" ["x", "y"] "m1" 1 stB).2
      = Except.ok [{ id := "m1", session_id := "s1", content := "Valid content",
                     created_at := 1, tags := ["x", "y"] }] :=
  claim7_add_then_get_roundtrip "s1" "Valid content" ["x", "y"] "m1" 1 stB sessB
    (by decide) (by decide) (by decide) (by rfl) (by rfl)

/-- Claim C8: clearing an existing session removes exactly the memories that
referenced it (in particular, memories of other sessions are untouched and
keep their order), keeps the session record with `memory_count` recomputed
to 0, and leaves every other session record unchanged. -/
theorem claim8_clear_session_frame (st : Store) (sid : String) (sess : Session)
    (hInv : Inv st) (hsid : sid ≠ "") (hsess : alookup sid st.sessions = some sess) :
    (handle_clear_session sid st).1
        = Except.ok (get_session_memories st.memories sid).length
    ∧ (handle_clear_session sid st).2.memories
        = st.memories.filter (fun p => !((Prod.snd p).session_id == sid))
    ∧ alookup sid (handle_clear_session sid st).2.sessions
        = some { sess with memory_count := 0 }
    ∧ ∀ k, k ≠ sid →
        alookup k (handle_clear_session sid st).2.sessions = alookup k st.sessions := by
  have hex : session_exists sid st = true := by rw [session_exists, hsess]; rfl
  have hbridge := delIds_eq_filter st.memories sid hInv.1.2 hInv.2.2.2.2
  have hres : handle_clear_session sid st
      = (Except.ok (get_session_memories st.memories sid).length,
         update_session_memory_count sid
           { st with memories := st.memories.filter (fun p =>
               !(((get_session_memories st.memories sid).map (fun m => m.id)).contains p.1)) }) := by
    simp [handle_clear_session, hsid, hex]
  rw [hres]
  refine ⟨rfl, ?_, ?_, ?_⟩
  · rw [update_session_memory_count]
    dsimp only
    exact hbridge
  · rw [update_session_memory_count]
    dsimp only
    rw [alookup_mapUpd, if_pos rfl, hsess]
    simp only [Option.map]
    rw [hbridge, get_session_memories_removeSession, if_pos rfl]
    rfl
  · intro k hk
    rw [update_session_memory_count]
    dsimp only
    rw [alookup_mapUpd, if_neg hk]

/-- Claim C8 witness: clearing the only session of the concrete store. -/
theorem claim8_witness :
    (handle_clear_session "s1" stA).1 = Except.ok 1
    ∧ (handle_clear_session "s1" stA).2.memories = []
    ∧ alookup "s1" (handle_clear_session "s1" stA).2.sessions
        = some { sessA with memory_count := 0 } :=
  ⟨(claim8_clear_session_frame stA "s1" sessA (by decide) (by decide) (by decide)).1,
   (claim8_clear_session_frame stA "s1" sessA (by decide) (by decide) (by decide)).2.1,
   (claim8_clear_session_frame stA "s1" sessA (by decide) (by decide) (by decide)).2.2.1⟩

end SimpleMemory

